import Mathlib

/-!
# Verification of the idempotent wallet-transfer core

Shallow embedding of the Task-A wallet service of the repository
(`src/task-a-wallet/services/wallet.service.ts`,
`src/task-a-wallet/services/idempotency.service.ts`, and the Sequelize
models `wallet.model.ts`, `transaction.model.ts`, `transaction-log.model.ts`).

Modelling choices, all taken from the source:
* Monetary amounts are stored as `DECIMAL(15,2)`; we model the exact values
  as integers (`Amount := Int`, think smallest representable unit), which
  keeps the arithmetic exact, as the decimal column does.
* Wallet primary keys are UUIDs; all that matters for the claims is that
  they are distinct and totally ordered, so we model them as `Nat`.
* The transaction `reference` is `TXN-` plus a random UUID fragment; we
  model the generator as a counter kept in the database state, preserving
  the only property the source relies on (uniqueness / opacity).
* `sequelize.transaction` with a callback commits the callback's writes on
  success and rolls every write back on a thrown error; we model the
  atomic unit as a pure function that either returns the updated state or
  an error together with the *unchanged* pre-unit state.
* Row locks (`lock: t.LOCK.UPDATE`) acquired by the unit are recorded in a
  `lockTrace : List Nat` (wallet primary keys, in acquisition order), so
  lock-ordering claims can be stated about the embedding.
-/

namespace SycamoreWallet

/-- Monetary amount, exact (models the `DECIMAL(15,2)` column). -/
abbrev Amount := Int

/-- `TransactionStatus` enum of `transaction.model.ts`. -/
inductive TransactionStatus where
  | PENDING
  | COMPLETED
  | FAILED
deriving DecidableEq, Repr, Inhabited

/-- `TransactionLogStatus` enum of `transaction-log.model.ts`
(the idempotency-ledger record states). -/
inductive TransactionLogStatus where
  | PENDING
  | COMPLETED
  | FAILED
deriving DecidableEq, Repr

/-- A row of the `wallets` table (`wallet.model.ts`):
unique `id` (primary key) and unique `userId`, a balance. -/
structure Wallet where
  id : Nat
  userId : String
  balance : Amount
deriving DecidableEq, Repr

/-- A row of the `transactions` table (`transaction.model.ts`). The
`type` column is always `TRANSFER` in the code under scrutiny, so it is
omitted; `createdAt` is the commit clock tick. -/
structure Txn where
  id : Nat
  fromWalletId : Option Nat
  toWalletId : Option Nat
  amount : Amount
  status : TransactionStatus
  reference : String
  description : String
  createdAt : Nat
deriving DecidableEq, Repr

/-- `TransferRequest` interface of `wallet.service.ts`. -/
structure TransferRequest where
  fromUserId : String
  toUserId : String
  amount : Amount
  description : Option String
  idempotencyKey : String
deriving DecidableEq, Repr

/-- `TransferResponse` interface of `wallet.service.ts`. -/
structure TransferResponse where
  transactionId : Nat
  fromWalletId : Nat
  toWalletId : Nat
  amount : Amount
  status : TransactionStatus
  reference : String
  message : String
deriving DecidableEq, Repr, Inhabited

/-- A row of the `transaction_logs` table (`transaction-log.model.ts`):
the idempotency ledger.  `idempotencyKey` carries a storage-level
uniqueness constraint. -/
structure TransactionLog where
  idempotencyKey : String
  status : TransactionLogStatus
  transactionId : Option Nat
  requestPayload : TransferRequest
  responsePayload : Option TransferResponse
  errorMessage : Option String
deriving DecidableEq, Repr

/-- `AppError` of `utils/error-handler.ts`: a message plus an HTTP status
code. -/
structure AppError where
  message : String
  statusCode : Nat
deriving DecidableEq, Repr

/-- The persistent state: the three uniquely-keyed collections, plus the
transaction-id / reference generators and a commit clock. -/
structure DB where
  wallets : List Wallet
  transactions : List Txn
  logs : List TransactionLog
  nextTxnId : Nat
  nextRef : Nat
  now : Nat
deriving DecidableEq, Repr

/-- `Wallet.findOne({ where: { userId } })`: unique-key lookup. -/
def findWalletByUserId (db : DB) (uid : String) : Option Wallet :=
  db.wallets.find? (fun w => w.userId = uid)

/-- Lookup in `transactions` by primary key. -/
def findTxnById (db : DB) (tid : Nat) : Option Txn :=
  db.transactions.find? (fun t => t.id = tid)

/-- `IdempotencyService.checkIdempotencyKey`:
`TransactionLog.findOne({ where: { idempotencyKey } })`. -/
def checkIdempotencyKey (db : DB) (key : String) : Option TransactionLog :=
  db.logs.find? (fun l => l.idempotencyKey = key)

/-- `IdempotencyService.createPendingLog`: `TransactionLog.create` with a
PENDING status.  The storage-level uniqueness constraint on
`idempotencyKey` rejects the insert whenever *any* row with that key
already exists (whatever its status); the service maps the violation to
`AppError(409)`. -/
def createPendingLog (db : DB) (key : String) (req : TransferRequest) :
    Except AppError DB :=
  if (checkIdempotencyKey db key).isSome then
    .error { message := "Request is already being processed. Please wait.",
             statusCode := 409 }
  else
    .ok { db with logs :=
      { idempotencyKey := key
        status := TransactionLogStatus.PENDING
        transactionId := none
        requestPayload := req
        responsePayload := none
        errorMessage := none } :: db.logs }

/-- `IdempotencyService.markAsCompleted`: `TransactionLog.update({status:
COMPLETED, transactionId, responsePayload}, {where: {idempotencyKey}})`.
Note: the `where` clause filters on the key only — there is *no* guard on
the record's current status. -/
def markAsCompleted (db : DB) (key : String) (tid : Nat)
    (resp : TransferResponse) : DB :=
  { db with logs := db.logs.map (fun l =>
      if l.idempotencyKey = key then
        { l with status := TransactionLogStatus.COMPLETED
                 transactionId := some tid
                 responsePayload := some resp }
      else l) }

/-- `IdempotencyService.markAsFailed`: `TransactionLog.update({status:
FAILED, errorMessage}, {where: {idempotencyKey}})`.  As with
`markAsCompleted`, the update is keyed only on `idempotencyKey`: no guard
on the current status. -/
def markAsFailed (db : DB) (key : String) (msg : String) : DB :=
  { db with logs := db.logs.map (fun l =>
      if l.idempotencyKey = key then
        { l with status := TransactionLogStatus.FAILED
                 errorMessage := some msg }
      else l) }

/-- `fromWallet.decrement('balance', { by: amount })`: decrement the
balance of the row whose primary key is `wid`. -/
def applyDecrement (ws : List Wallet) (wid : Nat) (a : Amount) : List Wallet :=
  ws.map (fun w => if w.id = wid then { w with balance := w.balance - a } else w)

/-- `toWallet.increment('balance', { by: amount })`: increment the balance
of the row whose primary key is `wid`. -/
def applyIncrement (ws : List Wallet) (wid : Nat) (a : Amount) : List Wallet :=
  ws.map (fun w => if w.id = wid then { w with balance := w.balance + a } else w)

/-- `transaction.update({ status }, ...)`: set the status of the
transaction row with primary key `tid`. -/
def updateTxnStatus (ts : List Txn) (tid : Nat) (st : TransactionStatus) :
    List Txn :=
  ts.map (fun t => if t.id = tid then { t with status := st } else t)

/-- The reference generator: `TXN-` + a fresh opaque fragment (the source
draws a UUID fragment; the embedding draws from the state's counter). -/
def mkReference (n : Nat) : String :=
  "TXN-" ++ toString n

/-- The body of `sequelize.transaction(...)` in
`WalletService.processTransfer` (lines 82–155): lock and fetch the source
wallet, lock and fetch the destination wallet, check the balance, create
the PENDING transaction row, debit the source, credit the destination,
mark the row COMPLETED, and return the response.  The second component is
the trace of row locks acquired, in acquisition order (wallet primary
keys): the source wallet's lock is always taken first, then the
destination's.  On error, the caller rolls the unit back in full. -/
def atomicUnit (req : TransferRequest) (db : DB) :
    Except AppError (TransferResponse × DB) × List Nat :=
  match findWalletByUserId db req.fromUserId with
  | none => (.error { message := "Source wallet not found", statusCode := 404 }, [])
  | some fromWallet =>
    match findWalletByUserId db req.toUserId with
    | none =>
        (.error { message := "Destination wallet not found", statusCode := 404 },
         [fromWallet.id])
    | some toWallet =>
      if fromWallet.balance < req.amount then
        (.error { message := "Insufficient balance", statusCode := 400 },
         [fromWallet.id, toWallet.id])
      else
        let reference := mkReference db.nextRef
        let txn : Txn :=
          { id := db.nextTxnId
            fromWalletId := some fromWallet.id
            toWalletId := some toWallet.id
            amount := req.amount
            status := TransactionStatus.PENDING
            reference := reference
            description := req.description.getD
              ("Transfer from " ++ req.fromUserId ++ " to " ++ req.toUserId)
            createdAt := db.now }
        let db1 : DB :=
          { db with transactions := txn :: db.transactions
                    nextTxnId := db.nextTxnId + 1
                    nextRef := db.nextRef + 1
                    now := db.now + 1 }
        let db2 : DB := { db1 with wallets := applyDecrement db1.wallets fromWallet.id req.amount }
        let db3 : DB := { db2 with wallets := applyIncrement db2.wallets toWallet.id req.amount }
        let db4 : DB := { db3 with transactions := updateTxnStatus db3.transactions txn.id TransactionStatus.COMPLETED }
        (.ok ({ transactionId := txn.id
                fromWalletId := fromWallet.id
                toWalletId := toWallet.id
                amount := req.amount
                status := TransactionStatus.COMPLETED
                reference := reference
                message := "Transfer completed successfully" }, db4),
         [fromWallet.id, toWallet.id])

instance {ε α : Type} [DecidableEq ε] [DecidableEq α] :
    DecidableEq (Except ε α) := fun a b =>
  match a, b with
  | Except.ok x, Except.ok y =>
    if h : x = y then isTrue (by rw [h])
    else isFalse (fun hc => h (Except.ok.inj hc))
  | Except.error x, Except.error y =>
    if h : x = y then isTrue (by rw [h])
    else isFalse (fun hc => h (Except.error.inj hc))
  | Except.ok _, Except.error _ => isFalse (fun hc => Except.noConfusion hc)
  | Except.error _, Except.ok _ => isFalse (fun hc => Except.noConfusion hc)

/-- Outcome of one `processTransfer` call: the returned value or thrown
error, the post-state, and the row-lock acquisition trace. -/
structure PTOutcome where
  result : Except AppError TransferResponse
  db : DB
  lockTrace : List Nat
deriving Repr, DecidableEq

/-- Steps 3–5 of `processTransfer` (reached when the key is absent or
its record is FAILED): `createPendingLog` (outside the try block, so its
409 propagates as is), then the atomic unit; on success commit and
`markAsCompleted`, on error roll the unit's writes back and
`markAsFailed`, rethrowing. -/
def processTransferAfterCheck (req : TransferRequest) (db : DB) : PTOutcome :=
  match createPendingLog db req.idempotencyKey req with
  | .error e => { result := .error e, db := db, lockTrace := [] }
  | .ok dbPending =>
    match atomicUnit req dbPending with
    | (.ok (resp, dbUnit), trace) =>
      { result := .ok resp
        db := markAsCompleted dbUnit req.idempotencyKey resp.transactionId resp
        lockTrace := trace }
    | (.error e, trace) =>
      { result := .error e
        db := markAsFailed dbPending req.idempotencyKey e.message
        lockTrace := trace }

/-- `WalletService.processTransfer` (lines 46–167), step by step:
1. reject `amount ≤ 0`;
2. look up the idempotency key — COMPLETED replays the stored
   `responsePayload` (the source casts it unchecked, so an absent payload
   replays the default/undefined value), PENDING throws 409, FAILED or
   absent falls through to `processTransferAfterCheck` (steps 3–5). -/
def processTransfer (req : TransferRequest) (db : DB) : PTOutcome :=
  if req.amount ≤ 0 then
    { result := .error { message := "Transfer amount must be greater than 0",
                         statusCode := 400 }
      db := db, lockTrace := [] }
  else
    match checkIdempotencyKey db req.idempotencyKey with
    | some existingLog =>
      if existingLog.status = TransactionLogStatus.COMPLETED then
        { result := .ok (existingLog.responsePayload.getD default)
          db := db, lockTrace := [] }
      else if existingLog.status = TransactionLogStatus.PENDING then
        { result := .error { message := "This transaction is already being processed",
                             statusCode := 409 }
          db := db, lockTrace := [] }
      else
        processTransferAfterCheck req db
    | none => processTransferAfterCheck req db

/-- `WalletService.getTransactionHistory` (lines 209–222): find the
wallet by `userId` (404 when absent), then
`Transaction.findAll({where: {fromWalletId == id or toWalletId == id},
order: createdAt DESC, limit: 50})`. -/
def getTransactionHistory (db : DB) (userId : String) :
    Except AppError (List Txn) :=
  match findWalletByUserId db userId with
  | none => .error { message := "Wallet not found", statusCode := 404 }
  | some wallet =>
    .ok ((((db.transactions.filter (fun t =>
        t.fromWalletId = some wallet.id || t.toWalletId = some wallet.id)).mergeSort
          (fun a b => decide (b.createdAt ≤ a.createdAt))).take 50))

/-!
## Admission model for concurrent calls sharing one idempotency key

`processTransfer`'s admission phase consists of two separate storage
operations: the `checkIdempotencyKey` read (line 55) and the
`createPendingLog` insert (line 74), the latter atomic at the storage
layer through the uniqueness constraint on `idempotencyKey`.  To reason
about N concurrent calls sharing one key, we model the ledger row for
that key together with each caller's control point, and let the two
operations of the N callers interleave arbitrarily.  The transition rules
below are read off the branches of `processTransfer` /
`createPendingLog`:
* a check that finds no record, or a FAILED record, proceeds to the
  insert (lines 57–70, fall-through);
* a check that finds a PENDING record throws 409 (line 65);
* a check that finds a COMPLETED record replays the cached response
  (line 60);
* an insert into an empty slot succeeds atomically and makes the caller
  the winner (the one that proceeds to execute the transfer);
* an insert that hits an existing row of any status receives the
  uniqueness violation and throws 409 (idempotency.service.ts lines
  41–50).
Balances are mutated only after a caller has won admission, so a caller
that ends `conflicted` has touched no balance. -/

/-- Control point of one caller during admission. -/
inductive AdmPhase where
  | start
  | ready
  | won
  | conflicted
  | cached
deriving DecidableEq, Repr

/-- Shared state: the ledger slot for the one key, and each caller's
control point. -/
structure AdmState (n : Nat) where
  ledger : Option TransactionLogStatus
  phase : Fin n → AdmPhase

/-- One interleaved admission step by caller `i` (see the section
comment: each rule is a branch of the source's admission code). -/
inductive AdmStep {n : Nat} : AdmState n → AdmState n → Prop where
  | check_absent (s : AdmState n) (i : Fin n) :
      s.phase i = AdmPhase.start → s.ledger = none →
      AdmStep s { s with phase := Function.update s.phase i AdmPhase.ready }
  | check_failed (s : AdmState n) (i : Fin n) :
      s.phase i = AdmPhase.start → s.ledger = some TransactionLogStatus.FAILED →
      AdmStep s { s with phase := Function.update s.phase i AdmPhase.ready }
  | check_pending (s : AdmState n) (i : Fin n) :
      s.phase i = AdmPhase.start → s.ledger = some TransactionLogStatus.PENDING →
      AdmStep s { s with phase := Function.update s.phase i AdmPhase.conflicted }
  | check_completed (s : AdmState n) (i : Fin n) :
      s.phase i = AdmPhase.start → s.ledger = some TransactionLogStatus.COMPLETED →
      AdmStep s { s with phase := Function.update s.phase i AdmPhase.cached }
  | insert_win (s : AdmState n) (i : Fin n) :
      s.phase i = AdmPhase.ready → s.ledger = none →
      AdmStep s { ledger := some TransactionLogStatus.PENDING
                  phase := Function.update s.phase i AdmPhase.won }
  | insert_lose (s : AdmState n) (i : Fin n) :
      s.phase i = AdmPhase.ready → s.ledger ≠ none →
      AdmStep s { s with phase := Function.update s.phase i AdmPhase.conflicted }

/-- Initial state for a fresh key: no ledger row, every caller at its
first instruction. -/
def admInit (n : Nat) : AdmState n :=
  { ledger := none, phase := fun _ => AdmPhase.start }

/-- Reachability by interleaved admission steps. -/
def AdmReach {n : Nat} : AdmState n → AdmState n → Prop :=
  Relation.ReflTransGen AdmStep

/-- Invariant of the admission race on a fresh key: either no insert has
happened yet (empty slot, everyone still checking or about to insert), or
the slot is PENDING and exactly one caller has won, all others still
running or already conflicted. -/
def AdmInv {n : Nat} (s : AdmState n) : Prop :=
  (s.ledger = none ∧ ∀ i, s.phase i = AdmPhase.start ∨ s.phase i = AdmPhase.ready) ∨
  (s.ledger = some TransactionLogStatus.PENDING ∧
    ∃ i, s.phase i = AdmPhase.won ∧ ∀ j, j ≠ i →
      s.phase j = AdmPhase.start ∨ s.phase j = AdmPhase.ready ∨
      s.phase j = AdmPhase.conflicted)

/-- Two-caller race, after caller 0's check (empty slot seen). -/
def admS1 : AdmState 2 :=
  { ledger := none, phase := Function.update (admInit 2).phase 0 AdmPhase.ready }

/-- Two-caller race, after caller 1's check (still empty slot). -/
def admS2 : AdmState 2 :=
  { ledger := none, phase := Function.update admS1.phase 1 AdmPhase.ready }

/-- Two-caller race, after caller 0's insert won the uniqueness race. -/
def admS3 : AdmState 2 :=
  { ledger := some TransactionLogStatus.PENDING
    phase := Function.update admS2.phase 0 AdmPhase.won }

/-- The fully resolved two-caller race: caller 1's insert then hit the
uniqueness constraint and conflicted. -/
def admFinal : AdmState 2 :=
  { ledger := some TransactionLogStatus.PENDING
    phase := Function.update admS3.phase 1 AdmPhase.conflicted }

/-- Total money in the system. -/
def sumBalances (db : DB) : Amount :=
  (db.wallets.map Wallet.balance).sum

/-- Balance of the wallet with primary key `wid`. -/
def balanceOfId (db : DB) (wid : Nat) : Option Amount :=
  (db.wallets.find? (fun w => w.id = wid)).map Wallet.balance

/-!
## Concrete fixtures (spec §8 scenarios: accounts A and B)
-/

/-- Account A of the spec's scenarios (wallet primary key 1). -/
def wAlice : Wallet := { id := 1, userId := "alice", balance := 1000 }

/-- Account B of the spec's scenarios (wallet primary key 2). -/
def wBob : Wallet := { id := 2, userId := "bob", balance := 500 }

/-- A two-account database with an empty ledger. -/
def dbTwo : DB :=
  { wallets := [wAlice, wBob], transactions := [], logs := []
    nextTxnId := 10, nextRef := 0, now := 0 }

/-- Scenario-1 request: transfer 200 from A to B under key `K1`. -/
def reqAliceToBob : TransferRequest :=
  { fromUserId := "alice", toUserId := "bob", amount := 200
    description := none, idempotencyKey := "K1" }

/-- A transfer in the opposite direction (higher wallet id is the
source) under a fresh key. -/
def reqBobToAlice : TransferRequest :=
  { fromUserId := "bob", toUserId := "alice", amount := 100
    description := none, idempotencyKey := "K2" }

/-- The database after the scenario-1 transfer completed: `K1` is a
COMPLETED ledger record holding the stored response. -/
def dbCompleted : DB := (processTransfer reqAliceToBob dbTwo).db

/-- The response stored under `K1` by the scenario-1 transfer. -/
def respK1 : TransferResponse :=
  { transactionId := 10, fromWalletId := 1, toWalletId := 2, amount := 200
    status := TransactionStatus.COMPLETED, reference := "TXN-0"
    message := "Transfer completed successfully" }

/-- The COMPLETED ledger record stored under `K1`. -/
def logK1 : TransactionLog :=
  { idempotencyKey := "K1", status := TransactionLogStatus.COMPLETED
    transactionId := some 10, requestPayload := reqAliceToBob
    responsePayload := some respK1, errorMessage := none }

/-- A request that fails: 5000 exceeds A's balance; key `KF`. -/
def reqInsufficient : TransferRequest :=
  { fromUserId := "alice", toUserId := "bob", amount := 5000
    description := none, idempotencyKey := "KF" }

/-- The database after the failed attempt: `KF` is a FAILED record. -/
def dbFailedKF : DB := (processTransfer reqInsufficient dbTwo).db

/-- A valid retry of key `KF` (amount well within A's balance). -/
def reqRetryKF : TransferRequest := { reqInsufficient with amount := 50 }

/-- A response distinct from the one stored under `K1`. -/
def respOther : TransferResponse := { respK1 with transactionId := 99 }

/-!
## Helper lemmas
-/

/-- A keyed update of the log list (the shape of `markAsCompleted` and
`markAsFailed`) leaves lookups of every *other* key untouched, provided
the update preserves the key column. -/
theorem find?_keyed_log_update (logs : List TransactionLog) (key k : String)
    (f : TransactionLog → TransactionLog)
    (hf : ∀ l, (f l).idempotencyKey = l.idempotencyKey) (hne : k ≠ key) :
    (logs.map (fun l => if l.idempotencyKey = key then f l else l)).find?
      (fun l => l.idempotencyKey = k) =
    logs.find? (fun l => l.idempotencyKey = k) := by
  induction logs with
  | nil => rfl
  | cons hd tl ih =>
    by_cases hhd : hd.idempotencyKey = key
    · have hpf : (decide ((f hd).idempotencyKey = k)) = false := by
        rw [hf hd, hhd]
        exact decide_eq_false (fun hc => hne hc.symm)
      have hpr : (decide (hd.idempotencyKey = k)) = false := by
        rw [hhd]; exact decide_eq_false (fun hc => hne hc.symm)
      rw [List.map_cons, if_pos hhd,
          List.find?_cons_of_neg (p := fun (l : TransactionLog) => decide (l.idempotencyKey = k)) _
            (ne_true_of_eq_false hpf),
          List.find?_cons_of_neg (p := fun (l : TransactionLog) => decide (l.idempotencyKey = k)) _
            (ne_true_of_eq_false hpr)]
      exact ih
    · by_cases hk : hd.idempotencyKey = k
      · rw [List.map_cons, if_neg hhd,
            List.find?_cons_of_pos (p := fun (l : TransactionLog) => decide (l.idempotencyKey = k)) _
              (decide_eq_true hk),
            List.find?_cons_of_pos (p := fun (l : TransactionLog) => decide (l.idempotencyKey = k)) _
              (decide_eq_true hk)]
      · rw [List.map_cons, if_neg hhd,
            List.find?_cons_of_neg (p := fun (l : TransactionLog) => decide (l.idempotencyKey = k)) _
              (ne_true_of_eq_false (decide_eq_false hk)),
            List.find?_cons_of_neg (p := fun (l : TransactionLog) => decide (l.idempotencyKey = k)) _
              (ne_true_of_eq_false (decide_eq_false hk))]
        exact ih

/-- `markAsCompleted` on one key does not change what `checkIdempotencyKey`
returns for any other key. -/
theorem checkIdempotencyKey_markAsCompleted_ne (db : DB) (key k : String)
    (tid : Nat) (resp : TransferResponse) (hne : k ≠ key) :
    checkIdempotencyKey (markAsCompleted db key tid resp) k =
      checkIdempotencyKey db k := by
  unfold checkIdempotencyKey markAsCompleted
  exact find?_keyed_log_update db.logs key k _ (fun l => rfl) hne

/-- `markAsFailed` on one key does not change what `checkIdempotencyKey`
returns for any other key. -/
theorem checkIdempotencyKey_markAsFailed_ne (db : DB) (key k : String)
    (msg : String) (hne : k ≠ key) :
    checkIdempotencyKey (markAsFailed db key msg) k =
      checkIdempotencyKey db k := by
  unfold checkIdempotencyKey markAsFailed
  exact find?_keyed_log_update db.logs key k _ (fun l => rfl) hne

/-- The atomic unit never touches the idempotency ledger: on success the
returned state carries the input state's `logs` unchanged. -/
theorem atomicUnit_ok_logs (req : TransferRequest) (db : DB)
    (resp : TransferResponse) (dbU : DB) (tr : List Nat)
    (h : atomicUnit req db = (.ok (resp, dbU), tr)) :
    dbU.logs = db.logs := by
  unfold atomicUnit at h
  cases hf : findWalletByUserId db req.fromUserId with
  | none => rw [hf] at h; simp at h
  | some fromWallet =>
    cases ht : findWalletByUserId db req.toUserId with
    | none => rw [hf, ht] at h; simp at h
    | some toWallet =>
      rw [hf, ht] at h
      by_cases hb : fromWallet.balance < req.amount
      · simp [hb] at h
      · simp only [hb, if_false, if_neg hb] at h
        obtain ⟨h1, -⟩ := Prod.mk.injEq .. ▸ h
        cases h
        rfl

/-- A successful `createPendingLog` conses the fresh PENDING record onto
the log list and changes nothing else. -/
theorem createPendingLog_ok (db : DB) (key : String) (req : TransferRequest)
    (dbP : DB) (h : createPendingLog db key req = .ok dbP) :
    dbP = { db with logs :=
      { idempotencyKey := key, status := TransactionLogStatus.PENDING
        transactionId := none, requestPayload := req
        responsePayload := none, errorMessage := none } :: db.logs } := by
  unfold createPendingLog at h
  split at h
  · cases h
  · exact (Except.ok.inj h).symm

/-- If the key of the call differs from `k`, steps 3–5 of the executor
leave the ledger record under `k` unchanged. -/
theorem processTransferAfterCheck_preserves_other_key (req : TransferRequest)
    (db : DB) (k : String) (log : TransactionLog)
    (hlog : checkIdempotencyKey db k = some log)
    (hkne : k ≠ req.idempotencyKey) :
    checkIdempotencyKey (processTransferAfterCheck req db).db k = some log := by
  unfold processTransferAfterCheck
  cases hpend : createPendingLog db req.idempotencyKey req with
  | error e => simpa using hlog
  | ok dbPending =>
    have hdbp := createPendingLog_ok db req.idempotencyKey req dbPending hpend
    subst hdbp
    dsimp only
    have hskip : (decide
        (({ idempotencyKey := req.idempotencyKey, status := TransactionLogStatus.PENDING
            transactionId := none, requestPayload := req
            responsePayload := none, errorMessage := none } : TransactionLog).idempotencyKey
          = k)) = false :=
      decide_eq_false (fun hc => hkne hc.symm)
    rcases hau : atomicUnit req
        { db with logs :=
          { idempotencyKey := req.idempotencyKey, status := TransactionLogStatus.PENDING
            transactionId := none, requestPayload := req
            responsePayload := none, errorMessage := none } :: db.logs } with ⟨res, tr⟩
    cases res with
    | ok pr =>
      rcases pr with ⟨resp, dbU⟩
      have hul := atomicUnit_ok_logs req _ resp dbU tr hau
      dsimp only
      rw [checkIdempotencyKey_markAsCompleted_ne dbU req.idempotencyKey k
            resp.transactionId resp hkne]
      unfold checkIdempotencyKey
      rw [hul]
      simp only [List.find?_cons_of_neg (p := fun (l : TransactionLog) =>
        decide (l.idempotencyKey = k)) _ (ne_true_of_eq_false hskip)]
      exact hlog
    | error e =>
      dsimp only
      rw [checkIdempotencyKey_markAsFailed_ne _ req.idempotencyKey k e.message hkne]
      unfold checkIdempotencyKey
      simp only [List.find?_cons_of_neg (p := fun (l : TransactionLog) =>
        decide (l.idempotencyKey = k)) _ (ne_true_of_eq_false hskip)]
      exact hlog

/-!
## Claims
-/

/-- Claim C1.  The claim states that the atomic unit acquires the two
account row locks in ascending account-identifier order regardless of
transfer direction.  The source (wallet.service.ts lines 83–103) locks
the *source* wallet first and the *destination* wallet second, in request
order: for a transfer whose source wallet has the larger primary key the
acquisition order is descending, refuting the claim.  This theorem
evaluates the code at such an input: `wAlice.id < wBob.id`, yet the
bob→alice call acquires `[wBob.id, wAlice.id]`, which is not sorted
ascending (while the opposite call acquires `[wAlice.id, wBob.id]` — the
order follows direction, not identifiers). -/
theorem lock_order_follows_direction_not_ids :
    (processTransfer reqBobToAlice dbTwo).lockTrace = [wBob.id, wAlice.id] ∧
    (processTransfer reqAliceToBob dbTwo).lockTrace = [wAlice.id, wBob.id] ∧
    wAlice.id < wBob.id ∧
    ¬ List.Sorted (· ≤ ·) ((processTransfer reqBobToAlice dbTwo).lockTrace) := by
  decide

/-- Claim C2.  The claim states that a key whose ledger record is FAILED
is retryable: a new call re-enters the transfer logic and can succeed.
In the source, `markAsFailed` only *updates* the row, so the row still
exists; the retry's `createPendingLog` issues a fresh INSERT, which the
uniqueness constraint on `idempotencyKey` rejects, and the service maps
that to a 409 Conflict (idempotency.service.ts lines 41–50) — thrown
before the try block, so it propagates.  This theorem evaluates the code
at the failing input: after `reqInsufficient` fails and leaves `KF`
FAILED, the perfectly valid retry `reqRetryKF` is rejected with the 409
Conflict and mutates nothing, contradicting the claim (and the comment at
wallet.service.ts lines 68–69). -/
theorem failed_key_retry_is_rejected_with_conflict :
    (processTransfer reqInsufficient dbTwo).result =
      .error { message := "Insufficient balance", statusCode := 400 } ∧
    (checkIdempotencyKey dbFailedKF "KF").map TransactionLog.status =
      some TransactionLogStatus.FAILED ∧
    (processTransfer reqRetryKF dbFailedKF).result =
      .error { message := "Request is already being processed. Please wait.",
               statusCode := 409 } ∧
    (processTransfer reqRetryKF dbFailedKF).db = dbFailedKF := by
  decide

/-- Claim C3, counterexample.  The claim asserts that with a COMPLETED
record under the key, a second call "with the same or a different stated
amount" returns the stored response and performs *no re-validation*.  The
source validates the amount *before* the ledger lookup (wallet.service.ts
lines 49–52): a replay of `K1` with a non-positive stated amount is
rejected with the InvalidAmount error instead of returning the stored
response. -/
theorem completed_replay_revalidates_amount :
    (checkIdempotencyKey dbCompleted "K1").map TransactionLog.status =
      some TransactionLogStatus.COMPLETED ∧
    (processTransfer { reqAliceToBob with amount := -5 } dbCompleted).result =
      .error { message := "Transfer amount must be greater than 0",
               statusCode := 400 } ∧
    (processTransfer { reqAliceToBob with amount := -5 } dbCompleted).result ≠
      .ok respK1 := by
  decide

/-- Claim C3, amended: for every call with a *positive* stated amount
(same as or different from the original) whose key holds a COMPLETED
record, `processTransfer` returns the stored response verbatim (identical
transferId and reference), acquires no locks, and leaves the entire
database — balances included — unchanged, so balances change only once
across the two calls.  (Only the amount-positivity validation of step 1
still runs first; no other validation and no mutation happens.) -/
theorem completed_replay_returns_stored_response (req : TransferRequest)
    (db : DB) (log : TransactionLog) (resp : TransferResponse)
    (hamt : 0 < req.amount)
    (hlog : checkIdempotencyKey db req.idempotencyKey = some log)
    (hst : log.status = TransactionLogStatus.COMPLETED)
    (hresp : log.responsePayload = some resp) :
    (processTransfer req db).result = .ok resp ∧
    (processTransfer req db).db = db ∧
    (processTransfer req db).lockTrace = [] := by
  have hnot : ¬ req.amount ≤ 0 := not_le.mpr hamt
  simp [processTransfer, hnot, hlog, hst, hresp]

/-- Claim C3, amended, witness: replaying `K1` with the different stated
amount 999 returns the stored scenario-1 response and changes nothing. -/
theorem completed_replay_returns_stored_response_witness :
    (0 : Amount) < ({ reqAliceToBob with amount := 999 } : TransferRequest).amount ∧
    checkIdempotencyKey dbCompleted
      ({ reqAliceToBob with amount := 999 } : TransferRequest).idempotencyKey = some logK1 ∧
    logK1.status = TransactionLogStatus.COMPLETED ∧
    logK1.responsePayload = some respK1 ∧
    ((processTransfer { reqAliceToBob with amount := 999 } dbCompleted).result = .ok respK1 ∧
     (processTransfer { reqAliceToBob with amount := 999 } dbCompleted).db = dbCompleted ∧
     (processTransfer { reqAliceToBob with amount := 999 } dbCompleted).lockTrace = []) :=
  ⟨by decide, by decide, by decide, by decide,
   completed_replay_returns_stored_response _ dbCompleted logK1 respK1
     (by decide) (by decide) (by decide) (by decide)⟩

/-- Claim C8: a request with `amount ≤ 0` is rejected with the
InvalidAmount validation error as the very first step — whatever the
ledger holds for the supplied key — with no lock acquired and no state
change of any kind (wallet.service.ts lines 49–52 run before the
idempotency lookup at line 55). -/
theorem nonpositive_amount_rejected_first (req : TransferRequest) (db : DB)
    (h : req.amount ≤ 0) :
    (processTransfer req db).result =
      .error { message := "Transfer amount must be greater than 0",
               statusCode := 400 } ∧
    (processTransfer req db).db = db ∧
    (processTransfer req db).lockTrace = [] := by
  simp [processTransfer, h]

/-- Claim C8, witness: a zero-amount request on a database whose ledger
already holds a COMPLETED record for the same key is still rejected with
InvalidAmount and nothing changes. -/
theorem nonpositive_amount_rejected_first_witness :
    ({ reqAliceToBob with amount := 0 } : TransferRequest).amount ≤ 0 ∧
    ((processTransfer { reqAliceToBob with amount := 0 } dbCompleted).result =
      .error { message := "Transfer amount must be greater than 0",
               statusCode := 400 } ∧
     (processTransfer { reqAliceToBob with amount := 0 } dbCompleted).db = dbCompleted ∧
     (processTransfer { reqAliceToBob with amount := 0 } dbCompleted).lockTrace = []) :=
  ⟨by decide, nonpositive_amount_rejected_first _ dbCompleted (by decide)⟩

/-- Claim C5, counterexample.  The claim states that the terminal-state
operations apply only to a record currently in Pending state and that a
Completed record's stored response is never overwritten.  Both
`markAsCompleted` and `markAsFailed` update by key with *no* status guard
(idempotency.service.ts lines 59–94): applied to the COMPLETED record
`K1`, `markAsFailed` flips it to FAILED, and `markAsCompleted` with a
different response replaces the stored response. -/
theorem ledger_terminal_ops_lack_pending_guard :
    (checkIdempotencyKey dbCompleted "K1").map TransactionLog.status =
      some TransactionLogStatus.COMPLETED ∧
    (checkIdempotencyKey (markAsFailed dbCompleted "K1" "late failure") "K1").map
        TransactionLog.status = some TransactionLogStatus.FAILED ∧
    (checkIdempotencyKey (markAsCompleted dbCompleted "K1" 99 respOther) "K1").map
        TransactionLog.responsePayload = some (some respOther) ∧
    respOther ≠ respK1 := by
  decide

/-- Claim C5, amended: `markAsCompleted` and `markAsFailed` update the
record matching the key unconditionally — invoked directly on a Completed
record they do overwrite it — but in the orchestration every
`processTransfer` call leaves every COMPLETED ledger record (under its
own key or any other) exactly unchanged, record and stored response
alike; so along `processTransfer` executions the ledger still moves only
None → Pending → {Completed, Failed} and a Completed response is never
overwritten. -/
theorem processTransfer_never_overwrites_completed (req : TransferRequest)
    (db : DB) (k : String) (log : TransactionLog)
    (hlog : checkIdempotencyKey db k = some log)
    (hst : log.status = TransactionLogStatus.COMPLETED) :
    checkIdempotencyKey (processTransfer req db).db k = some log := by
  unfold processTransfer
  by_cases hamt : req.amount ≤ 0
  · simp [hamt, hlog]
  · rw [if_neg hamt]
    cases hchk : checkIdempotencyKey db req.idempotencyKey with
    | none =>
      have hkne : k ≠ req.idempotencyKey := by
        intro he
        rw [← he, hlog] at hchk
        cases hchk
      exact processTransferAfterCheck_preserves_other_key req db k log hlog hkne
    | some existingLog =>
      dsimp only
      by_cases hkeq : req.idempotencyKey = k
      · rw [hkeq] at hchk
        rw [hchk] at hlog
        have hle : existingLog = log := Option.some.inj hlog
        subst hle
        rw [if_pos hst]
        exact hchk
      · have hkne : k ≠ req.idempotencyKey := fun he => hkeq he.symm
        cases hstat : existingLog.status with
        | COMPLETED => rw [if_pos rfl]; exact hlog
        | PENDING =>
          rw [if_neg (by decide), if_pos rfl]
          exact hlog
        | FAILED =>
          rw [if_neg (by decide), if_neg (by decide)]
          exact processTransferAfterCheck_preserves_other_key req db k log hlog hkne

/-- Claim C5, amended, witness: a transfer under the fresh key `K2`
executed on a database whose `K1` record is COMPLETED leaves the `K1`
record — stored response included — exactly as it was. -/
theorem processTransfer_never_overwrites_completed_witness :
    checkIdempotencyKey dbCompleted "K1" = some logK1 ∧
    logK1.status = TransactionLogStatus.COMPLETED ∧
    checkIdempotencyKey (processTransfer reqBobToAlice dbCompleted).db "K1" = some logK1 :=
  ⟨by decide, by decide,
   processTransfer_never_overwrites_completed reqBobToAlice dbCompleted "K1" logK1
     (by decide) (by decide)⟩

/-- Claim C6: when both wallets exist and the source balance is strictly
below the amount (with a positive amount and a fresh key, so the check is
reached), the call throws the Insufficient-balance error and the atomic
unit rolls back in full: wallets and transactions are exactly as before.
(The idempotency ledger records the FAILED attempt, as step 5
prescribes.) -/
theorem insufficient_funds_rolls_back (req : TransferRequest) (db : DB)
    (fw tw : Wallet)
    (hkey : checkIdempotencyKey db req.idempotencyKey = none)
    (hfrom : findWalletByUserId db req.fromUserId = some fw)
    (hto : findWalletByUserId db req.toUserId = some tw)
    (hamt : 0 < req.amount)
    (hbal : fw.balance < req.amount) :
    (processTransfer req db).result =
      .error { message := "Insufficient balance", statusCode := 400 } ∧
    (processTransfer req db).db.wallets = db.wallets ∧
    (processTransfer req db).db.transactions = db.transactions := by
  have hnot : ¬ req.amount ≤ 0 := not_le.mpr hamt
  have hf' : db.wallets.find? (fun x => x.userId = req.fromUserId) = some fw := hfrom
  have ht' : db.wallets.find? (fun x => x.userId = req.toUserId) = some tw := hto
  simp [processTransfer, hnot, hkey, processTransferAfterCheck, createPendingLog,
        atomicUnit, findWalletByUserId, hf', ht', hbal, markAsFailed]

/-- Claim C6, witness: the spec's scenario 2 shape — transferring 5000
out of A's balance of 1000 fails with Insufficient balance and leaves
wallets and transactions untouched. -/
theorem insufficient_funds_rolls_back_witness :
    checkIdempotencyKey dbTwo reqInsufficient.idempotencyKey = none ∧
    findWalletByUserId dbTwo reqInsufficient.fromUserId = some wAlice ∧
    findWalletByUserId dbTwo reqInsufficient.toUserId = some wBob ∧
    (0 : Amount) < reqInsufficient.amount ∧
    wAlice.balance < reqInsufficient.amount ∧
    ((processTransfer reqInsufficient dbTwo).result =
      .error { message := "Insufficient balance", statusCode := 400 } ∧
     (processTransfer reqInsufficient dbTwo).db.wallets = dbTwo.wallets ∧
     (processTransfer reqInsufficient dbTwo).db.transactions = dbTwo.transactions) :=
  ⟨by decide, by decide, by decide, by decide, by decide,
   insufficient_funds_rolls_back reqInsufficient dbTwo wAlice wBob
     (by decide) (by decide) (by decide) (by decide) (by decide)⟩

/-- Debiting and then crediting the same row by the same amount is the
identity on the wallet table. -/
theorem applyIncrement_applyDecrement_same (ws : List Wallet) (wid : Nat)
    (a : Amount) :
    applyIncrement (applyDecrement ws wid a) wid a = ws := by
  unfold applyIncrement applyDecrement
  rw [List.map_map]
  calc ws.map ((fun w => if w.id = wid then { w with balance := w.balance + a } else w) ∘
        (fun w => if w.id = wid then { w with balance := w.balance - a } else w))
      = ws.map id := by
        refine List.map_congr_left (fun w _ => ?_)
        by_cases h : w.id = wid
        · subst h; simp [Function.comp, Int.sub_add_cancel]
        · simp [Function.comp, h]
    _ = ws := List.map_id ws

/-- Claim C10: a service-level self-transfer (destination owner equal to
the source owner) with a positive amount within the balance goes through
the whole success path — it returns a COMPLETED response whose source and
destination wallet ids coincide, records a COMPLETED transfer row with
equal endpoints, and leaves the wallet table (hence the balance) exactly
unchanged, because the debit and credit hit the same row. -/
theorem self_transfer_completes_balance_unchanged (req : TransferRequest)
    (db : DB) (w : Wallet)
    (hkey : checkIdempotencyKey db req.idempotencyKey = none)
    (hsame : req.toUserId = req.fromUserId)
    (hw : findWalletByUserId db req.fromUserId = some w)
    (hamt : 0 < req.amount)
    (hbal : ¬ w.balance < req.amount) :
    (∃ resp, (processTransfer req db).result = .ok resp ∧
      resp.status = TransactionStatus.COMPLETED ∧
      resp.fromWalletId = w.id ∧ resp.toWalletId = w.id ∧
      resp.amount = req.amount) ∧
    (processTransfer req db).db.wallets = db.wallets ∧
    (∃ t, (processTransfer req db).db.transactions.head? = some t ∧
      t.status = TransactionStatus.COMPLETED ∧
      t.fromWalletId = some w.id ∧ t.toWalletId = some w.id ∧
      t.amount = req.amount) := by
  have hnot : ¬ req.amount ≤ 0 := not_le.mpr hamt
  have hf' : db.wallets.find? (fun x => x.userId = req.fromUserId) = some w := hw
  have ht' : db.wallets.find? (fun x => x.userId = req.toUserId) = some w := by
    rw [hsame]; exact hw
  simp only [processTransfer, if_neg hnot, hkey, processTransferAfterCheck,
    createPendingLog, Option.isSome_none, Bool.false_eq_true, if_false,
    atomicUnit, findWalletByUserId, hf', ht', if_neg hbal, markAsCompleted,
    updateTxnStatus]
  refine ⟨⟨_, rfl, rfl, rfl, rfl, rfl⟩,
    applyIncrement_applyDecrement_same db.wallets w.id req.amount,
    ⟨{ id := db.nextTxnId, fromWalletId := some w.id, toWalletId := some w.id
       amount := req.amount, status := TransactionStatus.COMPLETED
       reference := mkReference db.nextRef
       description := req.description.getD
         ("Transfer from " ++ req.fromUserId ++ " to " ++ req.toUserId)
       createdAt := db.now }, ?_, rfl, rfl, rfl, rfl⟩⟩
  simp

/-- Claim C10, witness: Alice transferring 300 to herself completes,
records a self-loop COMPLETED transfer row, and leaves the wallet table
unchanged. -/
theorem self_transfer_completes_balance_unchanged_witness :
    checkIdempotencyKey dbTwo "KSELF" = none ∧
    (0 : Amount) < 300 ∧ ¬ wAlice.balance < 300 ∧
    ((∃ resp, (processTransfer
        { fromUserId := "alice", toUserId := "alice", amount := 300
          description := none, idempotencyKey := "KSELF" } dbTwo).result = .ok resp ∧
      resp.status = TransactionStatus.COMPLETED ∧
      resp.fromWalletId = wAlice.id ∧ resp.toWalletId = wAlice.id ∧
      resp.amount = 300) ∧
     (processTransfer
        { fromUserId := "alice", toUserId := "alice", amount := 300
          description := none, idempotencyKey := "KSELF" } dbTwo).db.wallets = dbTwo.wallets ∧
     (∃ t, (processTransfer
        { fromUserId := "alice", toUserId := "alice", amount := 300
          description := none, idempotencyKey := "KSELF" } dbTwo).db.transactions.head? = some t ∧
      t.status = TransactionStatus.COMPLETED ∧
      t.fromWalletId = some wAlice.id ∧ t.toWalletId = some wAlice.id ∧
      t.amount = 300)) :=
  ⟨by decide, by decide, by decide,
   self_transfer_completes_balance_unchanged
     { fromUserId := "alice", toUserId := "alice", amount := 300
       description := none, idempotencyKey := "KSELF" } dbTwo wAlice
     (by decide) rfl (by decide) (by decide) (by decide)⟩

/-- Balance updates do not change the id column. -/
theorem ids_applyDecrement (ws : List Wallet) (wid : Nat) (a : Amount) :
    (applyDecrement ws wid a).map Wallet.id = ws.map Wallet.id := by
  unfold applyDecrement
  rw [List.map_map]
  refine List.map_congr_left (fun w _ => ?_)
  by_cases h : w.id = wid <;> simp [Function.comp, h]

/-- Balance updates do not change the id column. -/
theorem ids_applyIncrement (ws : List Wallet) (wid : Nat) (a : Amount) :
    (applyIncrement ws wid a).map Wallet.id = ws.map Wallet.id := by
  unfold applyIncrement
  rw [List.map_map]
  refine List.map_congr_left (fun w _ => ?_)
  by_cases h : w.id = wid <;> simp [Function.comp, h]

/-- With unique wallet ids, debiting a present row lowers the total of
the balance column by exactly the amount. -/
theorem sum_applyDecrement (ws : List Wallet) (wid : Nat) (a : Amount)
    (hnd : (ws.map Wallet.id).Nodup) (hmem : wid ∈ ws.map Wallet.id) :
    ((applyDecrement ws wid a).map Wallet.balance).sum =
      (ws.map Wallet.balance).sum - a := by
  unfold applyDecrement
  revert hnd hmem
  induction ws with
  | nil => intro hnd hmem; cases hmem
  | cons h t ih =>
    intro hnd hmem
    rw [List.map_cons] at hnd
    rcases List.nodup_cons.mp hnd with ⟨hhn, hnd'⟩
    by_cases hh : h.id = wid
    · have htail : ∀ w ∈ t, ¬ w.id = wid := by
        intro w hwmem hcon
        exact hhn (hh ▸ hcon ▸ List.mem_map_of_mem Wallet.id hwmem)
      have htmap : t.map (fun w =>
          if w.id = wid then { w with balance := w.balance - a } else w) = t := by
        conv_rhs => rw [← List.map_id t]
        exact List.map_congr_left (fun w hw => by rw [if_neg (htail w hw)]; rfl)
      rw [List.map_cons, if_pos hh, List.map_cons, htmap, List.map_cons,
          List.sum_cons, List.sum_cons]
      dsimp only
      ring
    · have hmem' : wid ∈ t.map Wallet.id := by
        rcases List.mem_cons.mp hmem with hc | hc
        · exact absurd hc.symm hh
        · exact hc
      rw [List.map_cons, if_neg hh, List.map_cons, List.map_cons, List.sum_cons,
          List.sum_cons, ih hnd' hmem']
      ring

/-- With unique wallet ids, crediting a present row raises the total of
the balance column by exactly the amount. -/
theorem sum_applyIncrement (ws : List Wallet) (wid : Nat) (a : Amount)
    (hnd : (ws.map Wallet.id).Nodup) (hmem : wid ∈ ws.map Wallet.id) :
    ((applyIncrement ws wid a).map Wallet.balance).sum =
      (ws.map Wallet.balance).sum + a := by
  unfold applyIncrement
  revert hnd hmem
  induction ws with
  | nil => intro hnd hmem; cases hmem
  | cons h t ih =>
    intro hnd hmem
    rw [List.map_cons] at hnd
    rcases List.nodup_cons.mp hnd with ⟨hhn, hnd'⟩
    by_cases hh : h.id = wid
    · have htail : ∀ w ∈ t, ¬ w.id = wid := by
        intro w hwmem hcon
        exact hhn (hh ▸ hcon ▸ List.mem_map_of_mem Wallet.id hwmem)
      have htmap : t.map (fun w =>
          if w.id = wid then { w with balance := w.balance + a } else w) = t := by
        conv_rhs => rw [← List.map_id t]
        exact List.map_congr_left (fun w hw => by rw [if_neg (htail w hw)]; rfl)
      rw [List.map_cons, if_pos hh, List.map_cons, htmap, List.map_cons,
          List.sum_cons, List.sum_cons]
      dsimp only
      ring
    · have hmem' : wid ∈ t.map Wallet.id := by
        rcases List.mem_cons.mp hmem with hc | hc
        · exact absurd hc.symm hh
        · exact hc
      rw [List.map_cons, if_neg hh, List.map_cons, List.map_cons, List.sum_cons,
          List.sum_cons, ih hnd' hmem']
      ring

/-- Lookup by id commutes with a debit (the update preserves ids). -/
theorem find?_id_applyDecrement (ws : List Wallet) (wid j : Nat) (a : Amount) :
    (applyDecrement ws wid a).find? (fun w => w.id = j) =
      (ws.find? (fun w => w.id = j)).map
        (fun w => if w.id = wid then { w with balance := w.balance - a } else w) := by
  unfold applyDecrement
  have hp : ((fun w => decide (w.id = j)) ∘ fun (w : Wallet) =>
      if w.id = wid then { w with balance := w.balance - a } else w) =
      (fun w : Wallet => decide (w.id = j)) := by
    funext w
    by_cases h : w.id = wid <;> simp [Function.comp, h]
  rw [List.find?_map, hp]

/-- Lookup by id commutes with a credit (the update preserves ids). -/
theorem find?_id_applyIncrement (ws : List Wallet) (wid j : Nat) (a : Amount) :
    (applyIncrement ws wid a).find? (fun w => w.id = j) =
      (ws.find? (fun w => w.id = j)).map
        (fun w => if w.id = wid then { w with balance := w.balance + a } else w) := by
  unfold applyIncrement
  have hp : ((fun w => decide (w.id = j)) ∘ fun (w : Wallet) =>
      if w.id = wid then { w with balance := w.balance + a } else w) =
      (fun w : Wallet => decide (w.id = j)) := by
    funext w
    by_cases h : w.id = wid <;> simp [Function.comp, h]
  rw [List.find?_map, hp]

/-- With unique ids, looking a member wallet up by its own id finds it. -/
theorem find?_id_of_nodup (ws : List Wallet) (w : Wallet)
    (hnd : (ws.map Wallet.id).Nodup) (hw : w ∈ ws) :
    ws.find? (fun x => x.id = w.id) = some w := by
  revert hnd hw
  induction ws with
  | nil => intro hnd hw; cases hw
  | cons h t ih =>
    intro hnd hw
    rw [List.map_cons] at hnd
    rcases List.nodup_cons.mp hnd with ⟨hhn, hnd'⟩
    rcases List.mem_cons.mp hw with rfl | hmem
    · rw [List.find?_cons_of_pos _ (by simp)]
    · have hne : ¬ h.id = w.id := fun hc =>
        hhn (hc ▸ List.mem_map_of_mem Wallet.id hmem)
      rw [List.find?_cons_of_neg _ (by simpa using hne)]
      exact ih hnd' hmem

/-- Claim C7: a completed transfer between two distinct existing wallets
(unique ids, fresh key, positive amount within balance) debits the
source by exactly the amount, credits the destination by exactly the
amount, and leaves the total of all balances unchanged. -/
theorem completed_transfer_conserves_balances (req : TransferRequest)
    (db : DB) (fw tw : Wallet)
    (hnd : (db.wallets.map Wallet.id).Nodup)
    (hkey : checkIdempotencyKey db req.idempotencyKey = none)
    (hfrom : findWalletByUserId db req.fromUserId = some fw)
    (hto : findWalletByUserId db req.toUserId = some tw)
    (hne : fw.id ≠ tw.id)
    (hamt : 0 < req.amount)
    (hbal : ¬ fw.balance < req.amount) :
    (∃ resp, (processTransfer req db).result = .ok resp ∧
      resp.status = TransactionStatus.COMPLETED ∧ resp.amount = req.amount) ∧
    balanceOfId (processTransfer req db).db fw.id = some (fw.balance - req.amount) ∧
    balanceOfId (processTransfer req db).db tw.id = some (tw.balance + req.amount) ∧
    sumBalances (processTransfer req db).db = sumBalances db := by
  have hnot : ¬ req.amount ≤ 0 := not_le.mpr hamt
  have hf' : db.wallets.find? (fun x => x.userId = req.fromUserId) = some fw := hfrom
  have ht' : db.wallets.find? (fun x => x.userId = req.toUserId) = some tw := hto
  have hfmem : fw ∈ db.wallets := List.mem_of_find?_eq_some hf'
  have htmem : tw ∈ db.wallets := List.mem_of_find?_eq_some ht'
  have htne : tw.id ≠ fw.id := Ne.symm hne
  simp only [processTransfer, if_neg hnot, hkey, processTransferAfterCheck,
    createPendingLog, Option.isSome_none, Bool.false_eq_true, if_false,
    atomicUnit, findWalletByUserId, hf', ht', if_neg hbal, markAsCompleted,
    updateTxnStatus, balanceOfId, sumBalances]
  refine ⟨⟨_, rfl, rfl, rfl⟩, ?_, ?_, ?_⟩
  · rw [find?_id_applyIncrement, find?_id_applyDecrement,
        find?_id_of_nodup db.wallets fw hnd hfmem]
    simp [hne]
  · rw [find?_id_applyIncrement, find?_id_applyDecrement,
        find?_id_of_nodup db.wallets tw hnd htmem]
    simp [htne]
  · rw [sum_applyIncrement _ tw.id _
          (by rw [ids_applyDecrement]; exact hnd)
          (by rw [ids_applyDecrement]; exact List.mem_map_of_mem Wallet.id htmem),
        sum_applyDecrement _ fw.id _ hnd (List.mem_map_of_mem Wallet.id hfmem)]
    ring

/-- Claim C7, witness: the spec's scenario 1 — transferring 200 from
A(1000) to B(500) leaves A at 800, B at 700, total 1500 unchanged. -/
theorem completed_transfer_conserves_balances_witness :
    (dbTwo.wallets.map Wallet.id).Nodup ∧
    checkIdempotencyKey dbTwo reqAliceToBob.idempotencyKey = none ∧
    findWalletByUserId dbTwo reqAliceToBob.fromUserId = some wAlice ∧
    findWalletByUserId dbTwo reqAliceToBob.toUserId = some wBob ∧
    wAlice.id ≠ wBob.id ∧
    ((∃ resp, (processTransfer reqAliceToBob dbTwo).result = .ok resp ∧
       resp.status = TransactionStatus.COMPLETED ∧
       resp.amount = reqAliceToBob.amount) ∧
     balanceOfId (processTransfer reqAliceToBob dbTwo).db wAlice.id =
       some (wAlice.balance - reqAliceToBob.amount) ∧
     balanceOfId (processTransfer reqAliceToBob dbTwo).db wBob.id =
       some (wBob.balance + reqAliceToBob.amount) ∧
     sumBalances (processTransfer reqAliceToBob dbTwo).db = sumBalances dbTwo) :=
  ⟨by decide, by decide, by decide, by decide, by decide,
   completed_transfer_conserves_balances reqAliceToBob dbTwo wAlice wBob
     (by decide) (by decide) (by decide) (by decide) (by decide) (by decide)
     (by decide)⟩

/-- Claim C9: for an owner whose wallet exists, the transaction history
is a finite list of at most 50 elements (the hard-coded limit of
`getTransactionHistory`), ordered most recent first (descending
`createdAt`), and containing only transactions of the database in which
the owner's wallet is the source or the destination. -/
theorem history_most_recent_first_limited (db : DB) (uid : String)
    (w : Wallet) (l : List Txn)
    (hw : findWalletByUserId db uid = some w)
    (hl : getTransactionHistory db uid = .ok l) :
    l.length ≤ 50 ∧
    l.Sorted (fun a b => b.createdAt ≤ a.createdAt) ∧
    ∀ t ∈ l, (t.fromWalletId = some w.id ∨ t.toWalletId = some w.id) ∧
      t ∈ db.transactions := by
  unfold getTransactionHistory at hl
  rw [hw] at hl
  have hleq : l = ((db.transactions.filter (fun t =>
      t.fromWalletId = some w.id || t.toWalletId = some w.id)).mergeSort
        (fun a b => decide (b.createdAt ≤ a.createdAt))).take 50 :=
    (Except.ok.inj hl).symm
  subst hleq
  refine ⟨?_, ?_, ?_⟩
  · rw [List.length_take]
    exact min_le_left _ _
  · have htrans : ∀ a b c : Txn,
        (decide (b.createdAt ≤ a.createdAt)) = true →
        (decide (c.createdAt ≤ b.createdAt)) = true →
        (decide (c.createdAt ≤ a.createdAt)) = true := by
      intro a b c hab hbc
      simp only [decide_eq_true_eq] at hab hbc ⊢
      exact Nat.le_trans hbc hab
    have htotal : ∀ a b : Txn,
        ((decide (b.createdAt ≤ a.createdAt)) ||
         (decide (a.createdAt ≤ b.createdAt))) = true := by
      intro a b
      rcases Nat.le_total b.createdAt a.createdAt with h | h <;> simp [h]
    have hp := @List.sorted_mergeSort Txn
      (fun a b => decide (b.createdAt ≤ a.createdAt)) htrans htotal
      (db.transactions.filter (fun t =>
        t.fromWalletId = some w.id || t.toWalletId = some w.id))
    have hp' := hp.sublist (List.take_sublist 50 _)
    exact hp'.imp (fun h => by simpa using h)
  · intro t ht
    have ht1 := List.mem_of_mem_take ht
    have ht2 := ((List.mergeSort_perm _ _).mem_iff).mp ht1
    rcases List.mem_filter.mp ht2 with ⟨hmem, hpred⟩
    refine ⟨?_, hmem⟩
    simpa using hpred

/-- Claim C9, witness: after the scenario-1 transfer, Alice's history
(her wallet now holds 800) satisfies the bound, the ordering and the
involvement condition. -/
theorem history_most_recent_first_limited_witness :
    findWalletByUserId dbCompleted "alice" = some ⟨1, "alice", 800⟩ ∧
    getTransactionHistory dbCompleted "alice" =
      .ok (((dbCompleted.transactions.filter (fun t =>
        t.fromWalletId = some ((1 : Nat)) || t.toWalletId = some ((1 : Nat)))).mergeSort
          (fun a b => decide (b.createdAt ≤ a.createdAt))).take 50) ∧
    ((((dbCompleted.transactions.filter (fun t =>
        t.fromWalletId = some ((1 : Nat)) || t.toWalletId = some ((1 : Nat)))).mergeSort
          (fun a b => decide (b.createdAt ≤ a.createdAt))).take 50).length ≤ 50 ∧
     (((dbCompleted.transactions.filter (fun t =>
        t.fromWalletId = some ((1 : Nat)) || t.toWalletId = some ((1 : Nat)))).mergeSort
          (fun a b => decide (b.createdAt ≤ a.createdAt))).take 50).Sorted
            (fun a b => b.createdAt ≤ a.createdAt) ∧
     ∀ t ∈ (((dbCompleted.transactions.filter (fun t =>
        t.fromWalletId = some ((1 : Nat)) || t.toWalletId = some ((1 : Nat)))).mergeSort
          (fun a b => decide (b.createdAt ≤ a.createdAt))).take 50),
       (t.fromWalletId = some (Wallet.mk 1 "alice" 800).id ∨
        t.toWalletId = some (Wallet.mk 1 "alice" 800).id) ∧
       t ∈ dbCompleted.transactions) :=
  ⟨by decide, rfl,
   history_most_recent_first_limited dbCompleted "alice" ⟨1, "alice", 800⟩ _
     (by decide) rfl⟩

/-- One interleaved admission step preserves the race invariant. -/
theorem admStep_preserves_inv {n : Nat} {s s' : AdmState n}
    (h : AdmStep s s') (hinv : AdmInv s) : AdmInv s' := by
  cases h with
  | check_absent i hph hled =>
    rcases hinv with ⟨hl, hall⟩ | ⟨hl, j, hwin, hoth⟩
    · left
      dsimp only
      refine ⟨hl, fun m => ?_⟩
      rw [Function.update_apply]
      by_cases hmi : m = i
      · rw [if_pos hmi]; exact Or.inr rfl
      · rw [if_neg hmi]; exact hall m
    · rw [hled] at hl; cases hl
  | check_failed i hph hled =>
    rcases hinv with ⟨hl, hall⟩ | ⟨hl, j, hwin, hoth⟩
    · rw [hled] at hl; cases hl
    · rw [hled] at hl; cases hl
  | check_pending i hph hled =>
    rcases hinv with ⟨hl, hall⟩ | ⟨hl, j, hwin, hoth⟩
    · rw [hled] at hl; cases hl
    · right
      dsimp only
      have hij : j ≠ i := fun he => by rw [← he, hwin] at hph; cases hph
      refine ⟨hl, j, ?_, fun m hm => ?_⟩
      · rw [Function.update_apply, if_neg hij]; exact hwin
      · rw [Function.update_apply]
        by_cases hmi : m = i
        · rw [if_pos hmi]; exact Or.inr (Or.inr rfl)
        · rw [if_neg hmi]; exact hoth m hm
  | check_completed i hph hled =>
    rcases hinv with ⟨hl, hall⟩ | ⟨hl, j, hwin, hoth⟩
    · rw [hled] at hl; cases hl
    · rw [hled] at hl; cases hl
  | insert_win i hph hled =>
    rcases hinv with ⟨hl, hall⟩ | ⟨hl, j, hwin, hoth⟩
    · right
      dsimp only
      refine ⟨rfl, i, ?_, fun m hm => ?_⟩
      · rw [Function.update_apply, if_pos rfl]
      · rw [Function.update_apply, if_neg hm]
        rcases hall m with h1 | h1
        · exact Or.inl h1
        · exact Or.inr (Or.inl h1)
    · rw [hled] at hl; cases hl
  | insert_lose i hph hled =>
    rcases hinv with ⟨hl, hall⟩ | ⟨hl, j, hwin, hoth⟩
    · exact absurd hl hled
    · right
      dsimp only
      have hij : j ≠ i := fun he => by rw [← he, hwin] at hph; cases hph
      refine ⟨hl, j, ?_, fun m hm => ?_⟩
      · rw [Function.update_apply, if_neg hij]; exact hwin
      · rw [Function.update_apply]
        by_cases hmi : m = i
        · rw [if_pos hmi]; exact Or.inr (Or.inr rfl)
        · rw [if_neg hmi]; exact hoth m hm

/-- Every state reachable from the fresh-key initial state satisfies the
race invariant. -/
theorem admReach_inv {n : Nat} {s : AdmState n}
    (h : AdmReach (admInit n) s) : AdmInv s := by
  have h' : Relation.ReflTransGen AdmStep (admInit n) s := h
  clear h
  induction h' with
  | refl => exact Or.inl ⟨rfl, fun i => Or.inl rfl⟩
  | tail hpre hstep ih => exact admStep_preserves_inv hstep ih

/-- Claim C4: in the interleaving model of any number of concurrent
`processTransfer` calls sharing one fresh idempotency key — each caller
performing its `checkIdempotencyKey` read and then its atomic
`createPendingLog` insert, in any order — once every caller has resolved
(won or conflicted), exactly one caller created the Pending record and
proceeds to execute, and every other caller ended in Conflict (409),
having either seen the Pending record at its check or lost the
uniqueness-constraint race at its insert.  Conflicted callers never reach
the atomic unit, so no balance is touched by them (in
`processTransfer`, both 409 paths return before `atomicUnit`). -/
theorem admission_has_exactly_one_winner {n : Nat} (s : AdmState n)
    (hn : 0 < n)
    (hreach : AdmReach (admInit n) s)
    (hres : ∀ i, s.phase i = AdmPhase.won ∨ s.phase i = AdmPhase.conflicted) :
    ∃ i, s.phase i = AdmPhase.won ∧
      ∀ j, j ≠ i → s.phase j = AdmPhase.conflicted := by
  have hinv := admReach_inv hreach
  rcases hinv with ⟨hl, hall⟩ | ⟨hl, i, hwin, hoth⟩
  · exfalso
    rcases hall ⟨0, hn⟩ with h0 | h0 <;> rcases hres ⟨0, hn⟩ with h1 | h1 <;>
      rw [h0] at h1 <;> cases h1
  · refine ⟨i, hwin, fun j hj => ?_⟩
    rcases hres j with hw | hc
    · rcases hoth j hj with h2 | h2 | h2 <;> rw [hw] at h2 <;> cases h2
    · exact hc

/-- Claim C4, witness: a concrete two-caller interleaving — both callers
check the empty slot, caller 0's insert wins, caller 1's insert hits the
uniqueness constraint — reaches a resolved state with exactly caller 0
the winner and caller 1 conflicted. -/
theorem admission_has_exactly_one_winner_witness :
    (0 < 2) ∧
    AdmReach (admInit 2) admFinal ∧
    (∀ i, admFinal.phase i = AdmPhase.won ∨ admFinal.phase i = AdmPhase.conflicted) ∧
    (∃ i, admFinal.phase i = AdmPhase.won ∧
      ∀ j, j ≠ i → admFinal.phase j = AdmPhase.conflicted) := by
  have h1 : AdmStep (admInit 2) admS1 :=
    AdmStep.check_absent (admInit 2) 0 rfl rfl
  have h2 : AdmStep admS1 admS2 :=
    AdmStep.check_absent admS1 1 (by decide) rfl
  have h3 : AdmStep admS2 admS3 :=
    AdmStep.insert_win admS2 0 (by decide) rfl
  have h4 : AdmStep admS3 admFinal :=
    AdmStep.insert_lose admS3 1 (by decide) (by simp [admS3])
  have hreach : AdmReach (admInit 2) admFinal :=
    Relation.ReflTransGen.tail (Relation.ReflTransGen.tail
      (Relation.ReflTransGen.tail (Relation.ReflTransGen.tail
        Relation.ReflTransGen.refl h1) h2) h3) h4
  exact ⟨by decide, hreach, by decide,
    admission_has_exactly_one_winner admFinal (by decide) hreach (by decide)⟩

end SycamoreWallet
